import Mathlib

/-!
# Verification of the userscript-proxy metadata/injection engine

This file gives a shallow embedding of the three source files of the
repository (`modules/metadata.py`, `modules/inject.py`, `injector.py`) and
proves or refutes the frozen claims about them.

Strings from the source are modelled as `String` / `List Char`; the small
regular expressions of the source (`REGEX_METADATA_BLOCK`,
`REGEX_METADATA_LINE`, `REGEX_CHARSET`) are deterministic on every input, so
they are embedded as hand-rolled matchers with the same semantics.
Python's `\s` class is modelled by its ASCII fragment, and `str.splitlines`
by its line-boundary character set; the userscript texts exercised by the
development only use `'\n'`.
-/

set_option autoImplicit false

/-- ASCII fragment of Python's regex class `\s`. -/
def isPySpace (c : Char) : Bool :=
  c = ' ' || c = '\t' || c = '\n' || c = '\r' || c = '\x0b' || c = '\x0c'

/-- Line-boundary characters of Python's `str.splitlines`. -/
def isLineBoundary (c : Char) : Bool :=
  c = '\n' || c = '\r' || c = '\x0b' || c = '\x0c' ||
  c = '\x1c' || c = '\x1d' || c = '\x1e' || c = '\u0085' ||
  c = '\u2028' || c = '\u2029'

/-- Model of Python's `str.splitlines` (no trailing empty line for a
trailing terminator; `"\r\n"` counts as a single boundary). -/
def splitlinesAux : List Char → List Char → List (List Char)
  | [], cur => if cur.isEmpty then [] else [cur.reverse]
  | '\r' :: '\n' :: rest, cur => cur.reverse :: splitlinesAux rest []
  | c :: rest, cur =>
    if isLineBoundary c then cur.reverse :: splitlinesAux rest []
    else splitlinesAux rest (c :: cur)

def splitlines (s : List Char) : List (List Char) :=
  splitlinesAux s []

/-! ## modules/metadata.py -/

/-- `TagValue = Union[str, bool]`. -/
inductive TagValue where
  | str (s : String)
  | boolean (b : Bool)
deriving DecidableEq, Repr

/-- `MetadataItem = Tuple[str, TagValue]`. -/
abbrev MetadataItem := String × TagValue

abbrev Metadata := List MetadataItem

/-- `Tag_string` NamedTuple from `modules/metadata.py`. -/
structure Tag_string where
  name : String
  unique : Bool
  default : Option String
  required : Bool
  predicate : Option (String → Bool)

/-- `Tag_boolean` NamedTuple from `modules/metadata.py`. -/
structure Tag_boolean where
  name : String
  unique : Bool
  default : Option Bool
  required : Bool
  predicate : Option (Bool → Bool)

/-- `Tag = Union[Tag_string, Tag_boolean]`. -/
inductive Tag where
  | string  (t : Tag_string)
  | boolean (t : Tag_boolean)

def Tag.name : Tag → String
  | .string t => t.name
  | .boolean t => t.name

def Tag.unique : Tag → Bool
  | .string t => t.unique
  | .boolean t => t.unique

def Tag.required : Tag → Bool
  | .string t => t.required
  | .boolean t => t.required

/-- `tag.default`, injected into `TagValue` (the Python code builds
`(tag.name, tag.default)` metadata items out of it). -/
def Tag.defaultValue : Tag → Option TagValue
  | .string t => t.default.map TagValue.str
  | .boolean t => t.default.map TagValue.boolean

/-- Error kinds of `MetadataError`; the Python code distinguishes them only
by message template, one constructor per template. -/
inductive MetadataErrorKind where
  | missingBlock
  | invalidLine (line : String)
  | missingTag (tagName : String)
  | missingValue (tagName : String)
  | predicateFailed (tagName : String)
deriving DecidableEq, Repr

/-! ### The metadata block / line grammar

`REGEX_METADATA_BLOCK = re.compile("//\s*==UserScript==\n(?P<content>.*)//\s*==/UserScript==", re.DOTALL)`
used with `.search`, and
`REGEX_METADATA_LINE = re.compile("^\s*//\s*@(?P<tagname>[^\s]+)(?:\s+?(?P<tagvalue>\S.*)?)?$")`.

Both patterns are deterministic: every `\s*` is followed by a character that
is not whitespace, so greedy matching with backtracking reduces to maximal
munch; `.*` of the block is greedy, so the block content extends to the
*last* position where the end marker matches; `.search` takes the first
start position where the whole pattern matches. -/

/-- Match `//` + `\s*` + `sentinel` at the head of `s`; return the rest. -/
def matchMarkerCore (sentinel : String) (s : List Char) : Option (List Char) :=
  match s with
  | '/' :: '/' :: rest =>
    let rest2 := rest.dropWhile isPySpace
    if sentinel.toList.isPrefixOf rest2 then some (rest2.drop sentinel.toList.length)
    else none
  | _ => none

/-- Match `//\s*==UserScript==\n` at the head of `s`; return the rest. -/
def matchBlockStart (s : List Char) : Option (List Char) :=
  match matchMarkerCore "==UserScript==" s with
  | some ('\n' :: rest) => some rest
  | _ => none

/-- Does `//\s*==/UserScript==` match at the head of `s`? -/
def matchesBlockEnd (s : List Char) : Bool :=
  (matchMarkerCore "==/UserScript==" s).isSome

/-- Last `k` such that the end marker matches at `r.drop k`
(the greedy `.*` of the block regex). -/
def lastEndPos (r : List Char) : Option Nat :=
  ((List.range (r.length + 1)).filter (fun k => matchesBlockEnd (r.drop k))).getLast?

/-- Whole block pattern anchored at the head of `s`:
start marker, then the greedy content, then the end marker. -/
def matchBlockAt (s : List Char) : Option (List Char) :=
  match matchBlockStart s with
  | none => none
  | some r =>
    match lastEndPos r with
    | none => none
    | some k => some (r.take k)

/-- `REGEX_METADATA_BLOCK.search`: first position where the block pattern
matches; returns the `content` group. -/
def findBlock : List Char → Option (List Char)
  | [] => none
  | c :: rest =>
    match matchBlockAt (c :: rest) with
    | some content => some content
    | none => findBlock rest

/-- `isWhitespaceLine` (`^\s*$`). -/
def isWhitespaceLine (l : List Char) : Bool :=
  l.all isPySpace

/-- `isCommentLine` (`^\s*//.*$`; a split line contains no newline). -/
def isCommentLine (l : List Char) : Bool :=
  "//".toList.isPrefixOf (l.dropWhile isPySpace)

/-- `REGEX_METADATA_LINE` as a deterministic matcher: returns the
`tagname` group and the optional `tagvalue` group.  The tag name is the
maximal nonempty run of non-whitespace after `@`; the value, when some
non-whitespace follows the name, runs from its first non-whitespace
character to the end of the line (trailing whitespace included). -/
def matchMetadataLine (line : List Char) : Option (List Char × Option (List Char)) :=
  match line.dropWhile isPySpace with
  | '/' :: '/' :: rest =>
    match rest.dropWhile isPySpace with
    | '@' :: r3 =>
      let name := r3.takeWhile (fun c => !isPySpace c)
      if name.isEmpty then none
      else
        let value := (r3.drop name.length).dropWhile isPySpace
        some (name, if value.isEmpty then none else some value)
    | _ => none
  | _ => none

def validMetadataLine (l : List Char) : Bool :=
  isWhitespaceLine l || isCommentLine l || (matchMetadataLine l).isSome

/-- The line-checking loop of `extract`: first offending line wins. -/
def checkLines : List (List Char) → Except MetadataErrorKind Unit
  | [] => .ok ()
  | l :: rest =>
    if validMetadataLine l then checkLines rest
    else .error (.invalidLine (String.mk l))

/-- `extract(userscriptContent)` from `modules/metadata.py`. -/
def extract (userscriptContent : List Char) : Except MetadataErrorKind (List Char) :=
  match findBlock userscriptContent with
  | none => .error .missingBlock
  | some block =>
    match checkLines (splitlines block) with
    | .ok _ => .ok block
    | .error e => .error e

/-- `parseLine` inside `parse`: boolean tags (no explicit value) become
`True`, valued tags keep their trailing text. -/
def parseLine (line : List Char) : Option MetadataItem :=
  (matchMetadataLine line).map fun p =>
    (String.mk p.1,
      match p.2 with
      | none => TagValue.boolean true
      | some v => TagValue.str (String.mk v))

/-- `parse(metadataContent)` from `modules/metadata.py`: non-matching lines
are silently skipped. -/
def parse (metadataContent : List Char) : Metadata :=
  (splitlines metadataContent).filterMap parseLine

/-! ### The validator -/

/-- `tagByName(tags, tagName)`. -/
def tagByName (tags : List Tag) (tagName : String) : Option Tag :=
  tags.find? (fun t => t.name == tagName)

/-- `validatePair(tags, pair)`.  Unrecognized keys pass through; a string
tag with a non-string value is a `missingValue` error; a boolean tag's
value is coerced with `tagValue is not False`; a present predicate is
applied to the (possibly coerced) value. -/
def validatePair (tags : List Tag) (pair : MetadataItem) : Except MetadataErrorKind MetadataItem :=
  let (tagName, tagValue) := pair
  match tagByName tags tagName with
  | none => .ok (tagName, tagValue)
  | some (.string t) =>
    match tagValue with
    | .str s =>
      match t.predicate with
      | some p => if p s then .ok (tagName, .str s) else .error (.predicateFailed tagName)
      | none => .ok (tagName, .str s)
    | .boolean _ => .error (.missingValue tagName)
  | some (.boolean t) =>
    -- `tagValue = tagValue is not False`
    let b : Bool := match tagValue with
      | .boolean false => false
      | _ => true
    match t.predicate with
    | some p => if p b then .ok (tagName, .boolean b) else .error (.predicateFailed tagName)
    | none => .ok (tagName, .boolean b)

/-- `handleDuplicate` inside `validate`: throw the pair away iff its name
belongs to a known unique tag and was already emitted. -/
def handleDuplicate (tags : List Tag) (acc : List MetadataItem) (pair : MetadataItem) : List MetadataItem :=
  let name := pair.1
  match tagByName tags name with
  | some tag =>
    if tag.unique && (acc.map Prod.fst).contains name then acc else acc ++ [pair]
  | none => acc ++ [pair]

/-- `withoutDuplicates` inside `validate`. -/
def withoutDuplicates (tags : List Tag) (metadata : Metadata) : Metadata :=
  metadata.foldl (handleDuplicate tags) []

/-- The defaults appended by `withDefaults`: one `(name, default)` per tag
spec whose name is absent and whose default is non-null, in schema order. -/
def appendedDefaults (tags : List Tag) (metadata : Metadata) : Metadata :=
  (tags.filter (fun tag => !(metadata.map Prod.fst).contains tag.name)).filterMap
    (fun tag => tag.defaultValue.map (fun d => (tag.name, d)))

/-- `withDefaults` inside `validate`. -/
def withDefaults (tags : List Tag) (metadata : Metadata) : Metadata :=
  metadata ++ appendedDefaults tags metadata

/-- Python's `x not in iterator`: consumes the iterator up to the found
element (returning the rest) or exhausts it. -/
def iterNotIn (x : String) : List String → Bool × List String
  | [] => (true, [])
  | a :: rest => if a == x then (false, rest) else iterNotIn x rest

/-- The loop of `assertRequiredPresent`.  `ourTagNames` is a Python
iterator (`map(first, metadata)`) shared across all required tags, so each
membership test resumes where the previous one stopped. -/
def requiredLoop (metadata : Metadata) : List Tag → List String → Except MetadataErrorKind Metadata
  | [], _ => .ok metadata
  | t :: ts, iter =>
    let r := iterNotIn t.name iter
    if r.1 then .error (.missingTag t.name) else requiredLoop metadata ts r.2

/-- `assertRequiredPresent` inside `validate` (faithful to the source,
including the shared-iterator membership tests). -/
def assertRequiredPresent (tags : List Tag) (metadata : Metadata) : Except MetadataErrorKind Metadata :=
  requiredLoop metadata (tags.filter Tag.required) (metadata.map Prod.fst)

/-- `validate(tags, metadata)` from `modules/metadata.py`:
`list(map(validatePair, withDefaults(withoutDuplicates(assertRequiredPresent(metadata)))))`,
where `list(...)` raises at the first failing pair. -/
def validate (tags : List Tag) (metadata : Metadata) : Except MetadataErrorKind Metadata := do
  let m1 ← assertRequiredPresent tags metadata
  (withDefaults tags (withoutDuplicates tags m1)).mapM (validatePair tags)

/-! ### Specification-side helpers for the validator claims -/

/-- A tag name counts for de-duplication iff it is recognized by the schema
and the tag spec is marked unique (`tag is not None and tag.unique`). -/
def uniqueRecognized (tags : List Tag) (n : String) : Bool :=
  match tagByName tags n with
  | some t => t.unique
  | none => false

/-- Left-to-right de-duplication with an explicit set of already-emitted
names, mirroring the claim's phrasing; proved equal to the source's
`reduce(handleDuplicate, metadata, [])` below. -/
def dedupRel (tags : List Tag) (seen : List String) : Metadata → Metadata
  | [] => []
  | (n, v) :: rest =>
    if uniqueRecognized tags n && seen.contains n then dedupRel tags seen rest
    else (n, v) :: dedupRel tags (seen ++ [n]) rest

/-! ### Concrete inputs used by witnesses and counterexamples -/

def tagReqA : Tag := .string ⟨"a", false, none, true, none⟩

def tagReqB : Tag := .string ⟨"b", false, none, true, none⟩

def mdC1 : Metadata := [("b", .str "x"), ("a", .str "y")]

/-- Schema with a single unique tag `name`, for the C3 witness. -/
def tagsUniqueName : List Tag := [.string ⟨"name", true, none, false, none⟩]

def mdDupName : Metadata := [("name", .str "A"), ("name", .str "B")]

/-- Schema with the boolean tag `noframes`, for the C4 witness. -/
def tagsNoframes : List Tag := [.boolean ⟨"noframes", true, none, false, none⟩]

def noframesLine : List Char := "// @noframes anything".toList

/-- Schema with the defaulted tag `run-at`, for the C5 witness. -/
def tagRunAt : Tag := .string ⟨"run-at", true, some "document-end", false, none⟩

def exNoBlock : List Char := "hello".toList

def exBadBlockSrc : List Char := "// ==UserScript==\nBAD LINE\n// ==/UserScript==".toList

def exBadBlock : List Char := "BAD LINE\n".toList

/-! ## The document model

`modules/inject.py` and `injector.py` mutate a BeautifulSoup tree.  The
embedding is pure: a document is its list of top-level nodes, and only
elements have children.  `soup.body` / `soup.title` / `soup.head` are
"first element so named in document (preorder) order"; `x.find()` with no
arguments is the first element among the descendants — for a forest whose
non-element roots are childless this is the first element node of the
list; mutation rebuilds the tree. -/

inductive Node where
  | element (name : String) (attrs : List (String × String)) (children : List Node)
  | text (s : String)
  | comment (s : String)
  | doctype (s : String)

def isElem : Node → Bool
  | .element _ _ _ => true
  | _ => false

/-- First element named `name` in preorder (`soup.find(name)`). -/
def findFirstNamed (name : String) : List Node → Option Node
  | [] => none
  | .element nm a cs :: rest =>
    if nm == name then some (.element nm a cs)
    else
      match findFirstNamed name cs with
      | some n => some n
      | none => findFirstNamed name rest
  | _ :: rest => findFirstNamed name rest

/-- Does an element named `name` occur anywhere in the forest? -/
def hasNamed (name : String) : List Node → Bool
  | [] => false
  | .element nm _ cs :: rest => nm == name || hasNamed name cs || hasNamed name rest
  | _ :: rest => hasNamed name rest

/-- Rewrite the first element named `name` (preorder) with `f`; the flag
reports whether one was found (`soup.find(name) is not None`). -/
def mapFirstNamed (name : String) (f : String → List (String × String) → List Node → Node) :
    List Node → List Node × Bool
  | [] => ([], false)
  | .element nm a cs :: rest =>
    if nm == name then (f nm a cs :: rest, true)
    else
      match mapFirstNamed name f cs with
      | (cs2, true) => (.element nm a cs2 :: rest, true)
      | (_, false) =>
        match mapFirstNamed name f rest with
        | (rest2, fd) => (.element nm a cs :: rest2, fd)
  | other :: rest =>
    match mapFirstNamed name f rest with
    | (rest2, fd) => (other :: rest2, fd)

/-- Insert `tag` before the first element of a child list
(`body.find().insert_before(tag)`: the first element descendant of a node
in document order is its first element child). -/
def insertBeforeFirstElem (tag : Node) : List Node → List Node
  | [] => []
  | n :: rest => if isElem n then tag :: n :: rest else n :: insertBeforeFirstElem tag rest

/-- Insert `tag` right after the first element named `name` (preorder), as
its sibling (`soup.title.insert_after(tag)`). -/
def insertAfterFirstNamed (name : String) (tag : Node) : List Node → List Node × Bool
  | [] => ([], false)
  | .element nm a cs :: rest =>
    if nm == name then (.element nm a cs :: tag :: rest, true)
    else
      match insertAfterFirstNamed name tag cs with
      | (cs2, true) => (.element nm a cs2 :: rest, true)
      | (_, false) =>
        match insertAfterFirstNamed name tag rest with
        | (rest2, fd) => (.element nm a cs :: rest2, fd)
  | other :: rest =>
    match insertAfterFirstNamed name tag rest with
    | (rest2, fd) => (other :: rest2, fd)

/-- Insert `tag` right after the first top-level element
(`soup.find().insert_after(tag)`; the document's first element in preorder
is a top-level node). -/
def insertAfterFirstElem (tag : Node) : List Node → List Node
  | [] => []
  | n :: rest => if isElem n then n :: tag :: rest else n :: insertAfterFirstElem tag rest

/-! ## modules/inject.py -/

/-- `constants.VERSION` (value pinned by `injector.py`). -/
def VERSION : String := "0.2.0"

/-- Modelled from the spec: `ATTRIBUTE_UP_VERSION` from
`modules/constants.py` (not under `src/`): the marker attribute set on
every injected tag. -/
def ATTRIBUTE_UP_VERSION : String := "data-userscript-proxy-version"

/-- Modelled from the spec: `userscript.wrapInEventListener` from
`modules/userscript.py` (not under `src/`): wrap code so it only executes
once the given event has fired. -/
def wrapInEventListener (event code : String) : String :=
  "window.addEventListener(\"" ++ event ++ "\", function() \x7b\n" ++ code ++ "\n\x7d);"

/-- Modelled from the spec: `userscript.withEventListener`
(curried form used by `modules/inject.py`). -/
def withEventListener (event : String) : String → String :=
  fun code => wrapInEventListener event code

/-- Modelled from the spec: `userscript.withNoframes` from
`modules/userscript.py` (not under `src/`): wrap code so it only executes
in the top-level frame. -/
def withNoframes (code : String) : String :=
  "if (window.top === window.self) \x7b\n" ++ code ++ "\n\x7d"

/-- Modelled from the spec: `userscript.withVersionSuffix` from
`modules/userscript.py` (not under `src/`): the download URL with a
version query suffix. -/
def withVersionSuffix (url version : String) : String :=
  url ++ "?version=" ++ version

/-- `utilities.idem` (identity on strings, as used by `inject.py`). -/
def idem (s : String) : String := s

/-- Modelled from the spec: `utilities.stripIndendation` (sic, module not
under `src/`): strip the leading indentation of every line. -/
def stripIndendation (s : String) : String :=
  String.intercalate "\n" ((splitlines s.toList).map (fun l => String.mk (l.dropWhile isPySpace)))

/-- Run-at constants from `modules/userscript.py`. -/
def document_start : String := "document-start"

def document_end : String := "document-end"

def document_idle : String := "document-idle"

/-- The validated `Userscript` record (`modules/userscript.py`, not under
`src/`): the fields consumed by `inject.py` and `injector.py`, per the
spec's data model (anonymous-constructor order as listed). -/
structure Userscript where
  name : String
  version : String
  runAt : String
  noframes : Bool
  matchPatterns : List String
  includePatterns : List String
  excludePatterns : List String
  downloadURL : Option String
  content : String

/-- `Options` NamedTuple from `modules/inject.py`. -/
structure Options where
  inline : Bool
  verbose : Bool

/-- `useInline = options.inline or script.downloadURL is None`. -/
def useInline (script : Userscript) (options : Options) : Bool :=
  options.inline || script.downloadURL.isNone

def JS_insertScriptTag : String := "document.head.appendChild(s);"

/-- The `<script>` tag prepared by `inject` (`modules/inject.py`) before
insertion: the inline/remote axis and the runAt/noframes axes decide
whether the tag carries an inline body or a `src` attribute. -/
def injectTag (script : Userscript) (options : Options) : Node :=
  let withLoadListenerIfRunAtIdle :=
    if script.runAt == document_idle then withEventListener "load" else idem
  let withNoframesIfNoframes := if script.noframes then withNoframes else idem
  if useInline script options then
    .element "script" [(ATTRIBUTE_UP_VERSION, VERSION)]
      [.text (withNoframesIfNoframes (withLoadListenerIfRunAtIdle script.content))]
  else
    let src := withVersionSuffix (script.downloadURL.getD "") script.version
    let JS_insertionCode := stripIndendation
      ("\nconst s = document.createElement(\"script\");\ns.setAttribute(\""
        ++ ATTRIBUTE_UP_VERSION ++ "\", \"" ++ VERSION ++ "\");\ns.src = \"" ++ src
        ++ "\";\n" ++ withLoadListenerIfRunAtIdle JS_insertScriptTag ++ "\n")
    if script.runAt == document_idle || script.noframes then
      .element "script" [(ATTRIBUTE_UP_VERSION, VERSION)]
        [.text (withNoframesIfNoframes JS_insertionCode)]
    else
      .element "script" [(ATTRIBUTE_UP_VERSION, VERSION), ("src", src)] []

/-- The `elif` cascade of `insertEarlyIn` after the body case. -/
def insertEarlyFallback (soup : List Node) (tag : Node) : List Node :=
  if (findFirstNamed "title" soup).isSome then
    (insertAfterFirstNamed "title" tag soup).1
  else if (soup.find? isElem).isSome then
    insertAfterFirstElem tag soup
  else soup ++ [tag]

/-- `insertEarlyIn(soup, tag)` from `modules/inject.py`: before the first
element inside `body` if any; else after `title`; else after the first
element; else append. -/
def insertEarlyIn (soup : List Node) (tag : Node) : List Node :=
  match findFirstNamed "body" soup with
  | some (.element _ _ bodyChildren) =>
    if (bodyChildren.find? isElem).isSome then
      (mapFirstNamed "body" (fun nm a cs => .element nm a (insertBeforeFirstElem tag cs)) soup).1
    else insertEarlyFallback soup tag
  | _ => insertEarlyFallback soup tag

/-- `insertLateIn(soup, tag)` from `modules/inject.py`:
`fromOptional(soup.body, soup).append(tag)`. -/
def insertLateIn (soup : List Node) (tag : Node) : List Node :=
  match mapFirstNamed "body" (fun nm a cs => .element nm a (cs ++ [tag])) soup with
  | (soup2, true) => soup2
  | (_, false) => soup ++ [tag]

/-- `inject(script, soup, options)` from `modules/inject.py`: prepare the
tag, then insert late when `runAt == document_end` and early otherwise
(the same dispatch appears in the inline and the remote branch). -/
def inject (script : Userscript) (soup : List Node) (options : Options) : List Node :=
  let tag := injectTag script options
  if script.runAt == document_end then insertLateIn soup tag
  else insertEarlyIn soup tag

/-! ## injector.py -/

/-- Modelled from the spec: glob matching of `modules/userscript.py` (not
under `src/`): `*` matches any run of characters, everything else matches
literally; anchored to the whole URL. -/
def globMatch (p : List Char) (s : List Char) : Bool :=
  match p, s with
  | [], [] => true
  | [], _ :: _ => false
  | '*' :: ps, s =>
    globMatch ps s ||
      (match s with
       | [] => false
       | _ :: s2 => globMatch ('*' :: ps) s2)
  | c :: ps, c2 :: s2 => c == c2 && globMatch ps s2
  | _ :: _, [] => false
termination_by (p.length, s.length)

/-- Modelled from the spec: `userscript.applicableChecker(url)` (not under
`src/`): a script applies iff the URL matches some match/include pattern
and none of the exclude patterns. -/
def applicableChecker (url : String) (script : Userscript) : Bool :=
  ((script.matchPatterns ++ script.includePatterns).any
      (fun p => globMatch p.toList url.toList)) &&
    !(script.excludePatterns.any (fun p => globMatch p.toList url.toList))

def APP_NAME : String := "Userscript Proxy"

/-- `WELCOME_MESSAGE = APP_NAME + " " + stringifyVersion(VERSION)`. -/
def WELCOME_MESSAGE : String := APP_NAME ++ " " ++ "v" ++ VERSION

def RELEVANT_CONTENT_TYPES : List String := ["text/html", "application/xhtml+xml"]

def CHARSET_DEFAULT : String := "utf-8"

/-- `LIST_ITEM_PREFIX` of the source (TAB + bullet). -/
def listItemLead : String := "    " ++ "• "

/-- `INFO_COMMENT_PREFIX` of the source. -/
def infoCommentLead : String := "\n[" ++ WELCOME_MESSAGE ++ "]\n"

def itemList (strs : List String) : String :=
  String.intercalate "\n" (strs.map (fun s => listItemLead ++ s))

/-- Python's substring test `needle in hay`. -/
def pyIn (needle hay : String) : Bool :=
  (List.range (hay.toList.length + 1)).any
    (fun i => needle.toList.isPrefixOf (hay.toList.drop i))

/-- `REGEX_CHARSET = charset=([^;\s]+)` with `.search`: the charset value
starts after the first `charset=` that is followed by at least one
character that is neither `;` nor whitespace, and extends greedily. -/
def searchCharset : List Char → Option (List Char)
  | [] => none
  | c :: rest =>
    if "charset=".toList.isPrefixOf (c :: rest) then
      let v := ((c :: rest).drop 8).takeWhile (fun c2 => !(c2 == ';' || isPySpace c2))
      if v.isEmpty then searchCharset rest else some v
    else searchCharset rest

def isDoctype : Node → Bool
  | .doctype _ => true
  | _ => false

/-- `indexOfDoctype(soup)` from `injector.py`: index of the first doctype
node among the top-level contents. -/
def indexOfDoctype : List Node → Option Nat
  | [] => none
  | n :: rest =>
    if isDoctype n then some 0
    else (indexOfDoctype rest).map (fun i => i + 1)

/-- Python's `list.insert(i, x)` (appends when the index is past the end). -/
def pyInsert (i : Nat) (x : Node) : List Node → List Node
  | [] => [x]
  | a :: rest =>
    match i with
    | 0 => x :: a :: rest
    | j + 1 => a :: pyInsert j x rest

/-- The diagnostic comment node of `UserscriptInjector.response`. -/
def diagComment (insertedScripts : List String) : Node :=
  .comment (infoCommentLead ++
    (if insertedScripts.isEmpty then "No matching userscripts for this URL."
     else "These scripts were inserted:\n" ++ itemList insertedScripts) ++ "\n")

/-- `tag = soup.new_tag("script"); tag.string = content` in `response`. -/
def newScriptTag (content : String) : Node := .element "script" [] [.text content]

/-- `soup.head.append(tag)` / `soup.body.append(tag)`: the attribute lookup
returns the first so-named element, dereferenced without a null check —
a missing target raises (`.error ()`). -/
def appendToFirstNamed (name : String) (tag : Node) (soup : List Node) :
    Except Unit (List Node) :=
  match mapFirstNamed name (fun nm a cs => .element nm a (cs ++ [tag])) soup with
  | (soup2, true) => .ok soup2
  | (_, false) => .error ()

/-- One iteration of the per-script loop in `UserscriptInjector.response`:
`document-start` and `document-idle` tags go to `head` (idle wrapped in a
load listener), everything else to `body`. -/
def injectOne (soup : List Node) (script : Userscript) : Except Unit (List Node) :=
  if script.runAt == document_start then
    appendToFirstNamed "head" (newScriptTag script.content) soup
  else if script.runAt == document_idle then
    appendToFirstNamed "head" (newScriptTag (wrapInEventListener "load" script.content)) soup
  else
    appendToFirstNamed "body" (newScriptTag script.content) soup

/-- The per-script loop of `response`: the name of an applicable script is
recorded before its tag is inserted; a raise aborts the loop. -/
def processScripts (url : String) : List Userscript → List Node → List String →
    Except Unit (List Node × List String)
  | [], soup, names => .ok (soup, names)
  | script :: rest, soup, names =>
    if applicableChecker url script then
      match injectOne soup script with
      | .error e => .error e
      | .ok soup2 => processScripts url rest soup2 (names ++ [script.name])
    else processScripts url rest soup names

/-- The data `response` reads from the mitmproxy flow: request URL,
`Content-Type` header, and the parsed response document. -/
structure HttpFlow where
  requestUrl : String
  contentType : Option String
  soup : List Node

/-- Outcome of `UserscriptInjector.response`: body untouched, an uncaught
exception (mitmproxy leaves the response unmodified), or a rewritten
document re-encoded with the given charset. -/
inductive RewriteResult where
  | unchanged
  | crashed
  | rewritten (soup : List Node) (charset : String)

/-- `UserscriptInjector.response` from `injector.py`: rewrite only when a
relevant content type is a substring of the `Content-Type` header; process
every applicable script; insert the diagnostic comment after the first
doctype (index 0 when there is none); re-encode with the `charset=` value
of the header, defaulting to UTF-8. -/
def response (userscripts : List Userscript) (flow : HttpFlow) : RewriteResult :=
  match flow.contentType with
  | none => .unchanged
  | some contentType =>
    if RELEVANT_CONTENT_TYPES.any (fun t => pyIn t contentType) then
      match processScripts flow.requestUrl userscripts flow.soup [] with
      | .error _ => .crashed
      | .ok (soup2, insertedScripts) =>
        let soup3 := pyInsert
          (match indexOfDoctype soup2 with
           | none => 0
           | some i => i + 1)
          (diagComment insertedScripts) soup2
        let charset := match searchCharset contentType.toList with
          | none => CHARSET_DEFAULT
          | some v => String.mk v
        .rewritten soup3 charset
    else .unchanged

/-! ### Concrete inputs for the injection claims -/

/-- Inline script with `runAt = document-end` (fields in declaration
order: name, version, runAt, noframes, match, include, exclude,
downloadURL, content). -/
def scriptInlineEnd : Userscript :=
  ⟨"x", "1", document_end, false, ["*"], [], [], none, "X"⟩

def scriptRemoteEnd : Userscript :=
  ⟨"r", "1.0", document_end, false, ["*"], [], [], some "https://x/s.user.js", "R"⟩

def scriptStartAll : Userscript :=
  ⟨"s", "1", document_start, false, ["*"], [], [], none, "S"⟩

def optsNoInline : Options := ⟨false, false⟩

def soupBodyP : List Node :=
  [.element "html" [] [.element "body" [] [.element "p" [] []]]]

def soupLateDoctype : List Node :=
  [.comment "x", .doctype "html", .element "html" [] []]

def flowLateDoctype : HttpFlow :=
  ⟨"https://example.com/", some "text/html", soupLateDoctype⟩

def flowCharset : HttpFlow :=
  ⟨"https://example.com/", some "text/html; charset=ISO-8859-1",
    [.element "html" [] []]⟩

def flowNoHead : HttpFlow :=
  ⟨"https://example.com/", some "text/html",
    [.element "html" [] [.element "body" [] []]]⟩

/-! ## Theorems -/

/-- **C1** (code bug, failing input): with two required tags `a`, `b` and
metadata `[(b, x), (a, y)]` — both required tags present —
`validate` still raises `MissingRequiredTagError("b")`, because
`assertRequiredPresent` tests membership against the iterator
`map(first, metadata)`, which the test for `a` has already exhausted.
So `validate` can raise an error whose rule ("the @b directive is
required, but was not found") is not actually violated. -/
theorem validate_raises_missingTag_on_present_tag :
    validate [tagReqA, tagReqB] mdC1 = .error (.missingTag "b") ∧
    "b" ∈ mdC1.map Prod.fst := by
  constructor
  · rfl
  · simp [mdC1]

/-! ### De-duplication (claim C3) -/

theorem string_decide_eq (n m : String) : decide (n = m) = (n == m) := by
  cases h : n == m
  · have h2 : ¬ n = m := by simpa using h
    simp [h2]
  · have h2 : n = m := by simpa using h
    simp [h2]

theorem contains_append_single (l : List String) (m n : String) :
    (l ++ [m]).contains n = (l.contains n || n == m) := by
  induction l with
  | nil => simp [List.contains_cons, string_decide_eq]
  | cons a l ih => simp [List.contains_cons, ih, Bool.or_assoc, string_decide_eq]

theorem handleDuplicate_eq (tags : List Tag) (acc : List MetadataItem) (n : String) (v : TagValue) :
    handleDuplicate tags acc (n, v) =
      if uniqueRecognized tags n && (acc.map Prod.fst).contains n then acc
      else acc ++ [(n, v)] := by
  unfold handleDuplicate uniqueRecognized
  dsimp only
  cases h : tagByName tags n <;> rfl

theorem foldl_handleDuplicate (tags : List Tag) (md : Metadata) :
    ∀ acc : List MetadataItem,
      md.foldl (handleDuplicate tags) acc = acc ++ dedupRel tags (acc.map Prod.fst) md := by
  induction md with
  | nil => intro acc; simp [dedupRel]
  | cons p rest ih =>
    intro acc
    obtain ⟨n, v⟩ := p
    rw [List.foldl_cons, handleDuplicate_eq]
    by_cases h : (uniqueRecognized tags n && (acc.map Prod.fst).contains n) = true
    · rw [if_pos h, ih, dedupRel, if_pos h]
    · rw [if_neg h, ih, dedupRel, if_neg h]
      simp

theorem withoutDuplicates_eq_dedupRel (tags : List Tag) (md : Metadata) :
    withoutDuplicates tags md = dedupRel tags [] md := by
  unfold withoutDuplicates
  rw [foldl_handleDuplicate]
  simp

theorem dedupRel_sublist (tags : List Tag) (md : Metadata) :
    ∀ seen, (dedupRel tags seen md).Sublist md := by
  induction md with
  | nil => intro seen; simp [dedupRel]
  | cons p rest ih =>
    intro seen
    obtain ⟨n, v⟩ := p
    rw [dedupRel]
    by_cases h : (uniqueRecognized tags n && seen.contains n) = true
    · rw [if_pos h]
      exact (ih seen).cons _
    · rw [if_neg h]
      exact (ih (seen ++ [n])).cons₂ _

theorem dedupRel_filter_unique (tags : List Tag) (n : String)
    (hu : uniqueRecognized tags n = true) (md : Metadata) :
    ∀ seen, (dedupRel tags seen md).filter (fun p => p.1 == n) =
      if seen.contains n then [] else (md.filter (fun p => p.1 == n)).take 1 := by
  induction md with
  | nil => intro seen; cases hseen : seen.contains n <;> simp [dedupRel, hseen]
  | cons p rest ih =>
    intro seen
    obtain ⟨m, v⟩ := p
    rw [dedupRel]
    by_cases hmn : m = n
    · subst hmn
      cases hseen : seen.contains m with
      | false =>
        rw [hu]
        simp only [Bool.and_false, Bool.false_eq_true, if_false]
        have h1 : (dedupRel tags (seen ++ [m]) rest).filter (fun p => p.1 == m) = [] := by
          rw [ih (seen ++ [m]), contains_append_single, hseen]
          simp
        simp [List.filter_cons, h1, hseen]
      | true =>
        rw [hu]
        simp only [Bool.and_self, eq_self_iff_true, if_true]
        rw [ih seen, hseen]
        simp
    · have hnm : (n == m) = false := by
        simp only [beq_eq_false_iff_ne, ne_eq]
        exact fun h => hmn h.symm
      have hfil : ((m, v) :: rest).filter (fun p => p.1 == n) =
          rest.filter (fun p => p.1 == n) := by
        simp [List.filter_cons, hmn]
      by_cases hc : (uniqueRecognized tags m && seen.contains m) = true
      · rw [if_pos hc, ih seen, hfil]
      · have hfil2 : ((m, v) :: dedupRel tags (seen ++ [m]) rest).filter (fun p => p.1 == n) =
            (dedupRel tags (seen ++ [m]) rest).filter (fun p => p.1 == n) := by
          simp [List.filter_cons, hmn]
        rw [if_neg hc, hfil2, ih (seen ++ [m]), contains_append_single, hnm, hfil]
        simp

theorem dedupRel_filter_nonunique (tags : List Tag) (n : String)
    (hu : uniqueRecognized tags n = false) (md : Metadata) :
    ∀ seen, (dedupRel tags seen md).filter (fun p => p.1 == n) =
      md.filter (fun p => p.1 == n) := by
  induction md with
  | nil => intro seen; simp [dedupRel]
  | cons p rest ih =>
    intro seen
    obtain ⟨m, v⟩ := p
    rw [dedupRel]
    by_cases hmn : m = n
    · subst hmn
      rw [hu]
      simp only [Bool.false_and, Bool.false_eq_true, if_false]
      simp [List.filter_cons, ih (seen ++ [m])]
    · have hfil : ((m, v) :: rest).filter (fun p => p.1 == n) =
          rest.filter (fun p => p.1 == n) := by
        simp [List.filter_cons, hmn]
      by_cases hc : (uniqueRecognized tags m && seen.contains m) = true
      · rw [if_pos hc, ih seen, hfil]
      · have hfil2 : ((m, v) :: dedupRel tags (seen ++ [m]) rest).filter (fun p => p.1 == n) =
            (dedupRel tags (seen ++ [m]) rest).filter (fun p => p.1 == n) := by
          simp [List.filter_cons, hmn]
        rw [if_neg hc, hfil2, ih (seen ++ [m]), hfil]

/-- **C3** (confirmed): de-duplication scans left to right; for recognized
unique tag names only the first occurrence survives, items with non-unique
or unrecognized names are never dropped, and the relative order of the
survivors is preserved (the result is a sublist of the input). -/
theorem withoutDuplicates_spec (tags : List Tag) (md : Metadata) :
    (withoutDuplicates tags md).Sublist md ∧
    (∀ n, uniqueRecognized tags n = true →
      (withoutDuplicates tags md).filter (fun p => p.1 == n) =
        (md.filter (fun p => p.1 == n)).take 1) ∧
    (∀ n, uniqueRecognized tags n = false →
      (withoutDuplicates tags md).filter (fun p => p.1 == n) =
        md.filter (fun p => p.1 == n)) := by
  rw [withoutDuplicates_eq_dedupRel]
  refine ⟨dedupRel_sublist tags md [], fun n hu => ?_, fun n hu => ?_⟩
  · rw [dedupRel_filter_unique tags n hu md []]
    simp
  · exact dedupRel_filter_nonunique tags n hu md []

/-- Witness for C3 at the claim's own example: metadata
`[(name, "A"), (name, "B")]` with `name` unique keeps only the first
occurrence. -/
theorem withoutDuplicates_spec_witness :
    (withoutDuplicates tagsUniqueName mdDupName).filter (fun p => p.1 == "name") =
      (mdDupName.filter (fun p => p.1 == "name")).take 1 :=
  (withoutDuplicates_spec tagsUniqueName mdDupName).2.1 "name" rfl

/-! ### Boolean coercion (claim C4) -/

/-- `parse` never produces the value `False`: a matched line yields either a
string value or the boolean `True`. -/
theorem parse_value_not_false (c : List Char) (n : String) (v : TagValue)
    (h : (n, v) ∈ parse c) : v ≠ .boolean false := by
  unfold parse at h
  rw [List.mem_filterMap] at h
  obtain ⟨l, _, hl⟩ := h
  unfold parseLine at hl
  cases hm : matchMetadataLine l with
  | none => rw [hm] at hl; simp at hl
  | some p =>
    rw [hm] at hl
    simp only [Option.map_some'] at hl
    have h2 := Option.some.inj hl
    have hv : (match p.2 with
        | none => TagValue.boolean true
        | some v0 => TagValue.str (String.mk v0)) = v := congrArg Prod.snd h2
    cases hp : p.2 <;> rw [hp] at hv <;> simp [← hv]

/-- Predicate analysis for `validatePair` at a boolean tag whose incoming
value is `True` or a string. -/
theorem validatePair_boolean_aux (tags : List Tag) (n : String) (t : Tag_boolean)
    (htag : tagByName tags n = some (.boolean t)) (v : TagValue)
    (hv : v = TagValue.boolean true ∨ ∃ s, v = TagValue.str s) :
    (t.predicate = none → validatePair tags (n, v) = .ok (n, .boolean true)) ∧
    (∀ r, validatePair tags (n, v) = .ok r → r = (n, .boolean true)) := by
  unfold validatePair
  dsimp only
  rw [htag]
  dsimp only
  rcases hv with h | ⟨s, h⟩ <;> subst h <;> dsimp only <;>
    refine ⟨fun hp => by rw [hp], fun r hr => ?_⟩ <;>
    · cases hp : t.predicate with
      | none =>
        rw [hp] at hr
        exact (Except.ok.inj hr).symm
      | some p =>
        rw [hp] at hr
        dsimp only at hr
        cases hpt : p true
        · rw [hpt] at hr
          simp at hr
        · rw [hpt] at hr
          simp only [eq_self_iff_true, if_true] at hr
          exact (Except.ok.inj hr).symm

/-- **C4** (confirmed): for every metadata item produced by `parse` — i.e.
coming from the source text, where a value is either trailing text or the
implicit `True` — whose name matches a boolean-typed tag spec, validation
coerces the value to `true` unconditionally: whenever `validatePair`
succeeds it returns `(name, true)`, and with no predicate it always
succeeds with `(name, true)`. -/
theorem validatePair_boolean_true (tags : List Tag) (content : List Char)
    (n : String) (v : TagValue) (t : Tag_boolean)
    (hmem : (n, v) ∈ parse content)
    (htag : tagByName tags n = some (.boolean t)) :
    (t.predicate = none → validatePair tags (n, v) = .ok (n, .boolean true)) ∧
    (∀ r, validatePair tags (n, v) = .ok r → r = (n, .boolean true)) := by
  have hv := parse_value_not_false content n v hmem
  refine validatePair_boolean_aux tags n t htag v ?_
  cases v with
  | str s => exact Or.inr ⟨s, rfl⟩
  | boolean b =>
    cases b with
    | false => exact absurd rfl hv
    | true => exact Or.inl rfl

/-- Witness for C4 at the claim's example `"@noframes anything"`. -/
theorem validatePair_boolean_true_witness :
    validatePair tagsNoframes ("noframes", TagValue.str "anything") =
      .ok ("noframes", TagValue.boolean true) :=
  (validatePair_boolean_true tagsNoframes noframesLine "noframes" (TagValue.str "anything")
    ⟨"noframes", true, none, false, none⟩ (by decide) rfl).1 rfl

/-! ### Defaulting (claim C5) -/

/-- **C5** (confirmed): `withDefaults` appends, at the end of the metadata,
exactly one `(name, default)` item for each tag spec whose name carries no
item in the (post-de-duplication) metadata and whose default is non-null;
a tag name that is present with any value gets no appended default. -/
theorem withDefaults_spec (tags : List Tag) (md : Metadata) :
    withDefaults tags md = md ++ appendedDefaults tags md ∧
    ∀ n d, (n, d) ∈ appendedDefaults tags md ↔
      ((md.map Prod.fst).contains n = false ∧
        ∃ t, t ∈ tags ∧ t.name = n ∧ t.defaultValue = some d) := by
  refine ⟨rfl, fun n d => ?_⟩
  unfold appendedDefaults
  constructor
  · intro h
    rw [List.mem_filterMap] at h
    obtain ⟨t, ht, hmap⟩ := h
    rw [List.mem_filter] at ht
    obtain ⟨htags, hcond⟩ := ht
    cases hd : t.defaultValue with
    | none => rw [hd] at hmap; simp at hmap
    | some d0 =>
      rw [hd] at hmap
      simp only [Option.map_some'] at hmap
      have h2 := Option.some.inj hmap
      have hn : t.name = n := congrArg Prod.fst h2
      have hdd : d0 = d := congrArg Prod.snd h2
      subst hdd
      refine ⟨?_, t, htags, hn, hd⟩
      rw [← hn]
      simpa using hcond
  · rintro ⟨hcont, t, htags, hname, hdef⟩
    rw [List.mem_filterMap]
    refine ⟨t, ?_, ?_⟩
    · rw [List.mem_filter]
      refine ⟨htags, ?_⟩
      rw [hname, hcont]
      rfl
    · rw [hdef, Option.map_some', hname]

/-- Witness for C5 at the claim's example: omitting `run-at` appends
`(run-at, "document-end")`. -/
theorem withDefaults_spec_witness :
    withDefaults [tagRunAt] [] = [] ++ appendedDefaults [tagRunAt] [] ∧
    ("run-at", TagValue.str "document-end") ∈ appendedDefaults [tagRunAt] [] :=
  ⟨(withDefaults_spec [tagRunAt] []).1,
   ((withDefaults_spec [tagRunAt] []).2 "run-at" (.str "document-end")).mpr
     ⟨rfl, tagRunAt, by simp, rfl, rfl⟩⟩

/-! ### `extract` error behavior (claim C6) -/

theorem matchBlockAt_nil : matchBlockAt [] = none := rfl

theorem findBlock_eq_none_iff (s : List Char) :
    findBlock s = none ↔ ∀ i, matchBlockAt (s.drop i) = none := by
  induction s with
  | nil =>
    simp only [findBlock, true_iff]
    intro i
    rw [List.drop_nil, matchBlockAt_nil]
  | cons c rest ih =>
    rw [findBlock]
    cases h : matchBlockAt (c :: rest) with
    | some v =>
      refine iff_of_false (by simp) fun hall => ?_
      have h0 := hall 0
      rw [List.drop_zero, h] at h0
      exact Option.noConfusion h0
    | none =>
      rw [ih]
      constructor
      · intro hall i
        cases i with
        | zero => rw [List.drop_zero]; exact h
        | succ j => exact hall j
      · intro hall i
        exact hall (i + 1)

theorem matchBlockAt_drop_ge (s : List Char) (i : Nat) (hi : s.length ≤ i) :
    matchBlockAt (s.drop i) = none := by
  rw [List.drop_eq_nil_of_le hi, matchBlockAt_nil]

theorem checkLines_cases (ls : List (List Char)) :
    ((∀ l ∈ ls, validMetadataLine l = true) ∧ checkLines ls = .ok ()) ∨
    (∃ l, l ∈ ls ∧ validMetadataLine l = false ∧
      checkLines ls = .error (.invalidLine (String.mk l))) := by
  induction ls with
  | nil => exact Or.inl ⟨by simp, rfl⟩
  | cons l rest ih =>
    cases h : validMetadataLine l with
    | false =>
      refine Or.inr ⟨l, by simp, h, ?_⟩
      rw [checkLines, if_neg]
      rw [h]
      simp
    | true =>
      have hstep : checkLines (l :: rest) = checkLines rest := by
        rw [checkLines, if_pos h]
      rcases ih with ⟨hall, hok⟩ | ⟨l2, hmem, hbad, herr⟩
      · refine Or.inl ⟨?_, by rw [hstep]; exact hok⟩
        intro l3 hl3
        rcases List.mem_cons.mp hl3 with rfl | hl3
        · exact h
        · exact hall l3 hl3
      · exact Or.inr ⟨l2, List.mem_cons_of_mem l hmem, hbad, by rw [hstep]; exact herr⟩

/-- **C6** (confirmed): `extract` fails with the missing-block error when no
position of the text matches the metadata-block pattern; and when the block
pattern does match, either all interior lines are whitespace-only, plain
comments, or grammatical tag lines and the block is returned, or `extract`
fails with the invalid-line error carrying (verbatim) an interior line that
is none of these. -/
theorem extract_error_spec (s : List Char) :
    ((∀ i, i ≤ s.length → matchBlockAt (s.drop i) = none) →
      extract s = .error .missingBlock) ∧
    (∀ block, findBlock s = some block →
      ((∀ l ∈ splitlines block, validMetadataLine l = true) ∧ extract s = .ok block) ∨
      (∃ l, l ∈ splitlines block ∧ validMetadataLine l = false ∧
        extract s = .error (.invalidLine (String.mk l)))) := by
  constructor
  · intro h
    have hnone : findBlock s = none := by
      rw [findBlock_eq_none_iff]
      intro i
      by_cases hi : i ≤ s.length
      · exact h i hi
      · exact matchBlockAt_drop_ge s i (le_of_lt (lt_of_not_le hi))
    rw [extract, hnone]
  · intro block hblock
    rcases checkLines_cases (splitlines block) with ⟨hall, hok⟩ | ⟨l, hmem, hbad, herr⟩
    · exact Or.inl ⟨hall, by rw [extract, hblock]; dsimp only; rw [hok]⟩
    · exact Or.inr ⟨l, hmem, hbad, by rw [extract, hblock]; dsimp only; rw [herr]⟩

/-- Witness for C6: `"hello"` has no metadata block; a block containing the
line `BAD LINE` yields the invalid-line error for it. -/
theorem extract_error_spec_witness :
    extract exNoBlock = .error .missingBlock ∧
    (((∀ l ∈ splitlines exBadBlock, validMetadataLine l = true) ∧
        extract exBadBlockSrc = .ok exBadBlock) ∨
      (∃ l, l ∈ splitlines exBadBlock ∧ validMetadataLine l = false ∧
        extract exBadBlockSrc = .error (.invalidLine (String.mk l)))) :=
  ⟨(extract_error_spec exNoBlock).1 (by decide),
   (extract_error_spec exBadBlockSrc).2 exBadBlock (by decide)⟩

/-! ### Tree lemmas for the injection claims -/

/-- Strong induction useful for the nested `Node` forest. -/
theorem nodeForest_induction (P : List Node → Prop)
    (hnil : P [])
    (helem : ∀ nm a cs rest, P cs → P rest → P (Node.element nm a cs :: rest))
    (htext : ∀ s rest, P rest → P (Node.text s :: rest))
    (hcomment : ∀ s rest, P rest → P (Node.comment s :: rest))
    (hdoctype : ∀ s rest, P rest → P (Node.doctype s :: rest)) :
    ∀ ns, P ns := by
  have key : ∀ k ns, sizeOf ns ≤ k → P ns := by
    intro k
    induction k with
    | zero =>
      intro ns h
      cases ns with
      | nil => exact hnil
      | cons n rest => simp only [List.cons.sizeOf_spec] at h; omega
    | succ k ih =>
      intro ns h
      cases ns with
      | nil => exact hnil
      | cons n rest =>
        cases n with
        | element nm a cs =>
          simp only [List.cons.sizeOf_spec, Node.element.sizeOf_spec] at h
          exact helem nm a cs rest (ih cs (by omega)) (ih rest (by omega))
        | text s2 =>
          simp only [List.cons.sizeOf_spec] at h
          exact htext s2 rest (ih rest (by omega))
        | comment s2 =>
          simp only [List.cons.sizeOf_spec] at h
          exact hcomment s2 rest (ih rest (by omega))
        | doctype s2 =>
          simp only [List.cons.sizeOf_spec] at h
          exact hdoctype s2 rest (ih rest (by omega))
  exact fun ns => key (sizeOf ns) ns (le_refl _)

theorem hasNamed_append (name : String) (xs ys : List Node) :
    hasNamed name (xs ++ ys) = (hasNamed name xs || hasNamed name ys) := by
  induction xs with
  | nil => simp [hasNamed]
  | cons n rest ih => cases n <;> simp [hasNamed, ih, Bool.or_assoc]

/-- The found-flag of `mapFirstNamed` is exactly `hasNamed`. -/
theorem mapFirstNamed_flag (name : String)
    (f : String → List (String × String) → List Node → Node) :
    ∀ ns, (mapFirstNamed name f ns).2 = hasNamed name ns := by
  refine nodeForest_induction
    (fun ns => (mapFirstNamed name f ns).2 = hasNamed name ns) ?_ ?_ ?_ ?_ ?_
  · simp [mapFirstNamed, hasNamed]
  · intro nm a cs rest ihcs ihrest
    rw [mapFirstNamed, hasNamed]
    by_cases h : (nm == name) = true
    · rw [if_pos h, h]
      simp
    · have h2 : (nm == name) = false := by
        cases h3 : nm == name
        · rfl
        · exact absurd h3 h
      rw [if_neg h, h2]
      cases hcs : mapFirstNamed name f cs with
      | mk cs2 fd =>
        rw [hcs] at ihcs
        cases fd
        · cases hrest : mapFirstNamed name f rest with
          | mk rest2 fd2 =>
            rw [hrest] at ihrest
            simp only [← ihcs, ← ihrest]
            simp
        · simp only [← ihcs]
          simp
  · intro s rest ihrest
    simp only [mapFirstNamed, hasNamed]
    cases hrest : mapFirstNamed name f rest with
    | mk rest2 fd2 =>
      rw [hrest] at ihrest
      simpa using ihrest
  · intro s rest ihrest
    simp only [mapFirstNamed, hasNamed]
    cases hrest : mapFirstNamed name f rest with
    | mk rest2 fd2 =>
      rw [hrest] at ihrest
      simpa using ihrest
  · intro s rest ihrest
    simp only [mapFirstNamed, hasNamed]
    cases hrest : mapFirstNamed name f rest with
    | mk rest2 fd2 =>
      rw [hrest] at ihrest
      simpa using ihrest

/-- Appending a subtree free of `nameA`-elements into the first
`nameB`-element preserves the absence of `nameA`-elements. -/
theorem hasNamed_mapFirstNamed_append (nameA nameB : String) (tag : Node)
    (htag : hasNamed nameA [tag] = false) :
    ∀ ns, hasNamed nameA ns = false →
      hasNamed nameA
        (mapFirstNamed nameB (fun nm a cs => Node.element nm a (cs ++ [tag])) ns).1 = false := by
  refine nodeForest_induction
    (fun ns => hasNamed nameA ns = false →
      hasNamed nameA
        (mapFirstNamed nameB (fun nm a cs => Node.element nm a (cs ++ [tag])) ns).1 = false)
    ?_ ?_ ?_ ?_ ?_
  · intro _
    simp [mapFirstNamed, hasNamed]
  · intro nm a cs rest ihcs ihrest hno
    rw [hasNamed] at hno
    simp only [Bool.or_eq_false_iff] at hno
    obtain ⟨⟨hnmA, hcs⟩, hrest⟩ := hno
    rw [mapFirstNamed]
    by_cases hb : (nm == nameB) = true
    · rw [if_pos hb]
      dsimp only
      rw [hasNamed, hasNamed_append]
      simp [hnmA, hcs, hrest, htag]
    · rw [if_neg hb]
      cases hmcs : mapFirstNamed nameB (fun nm a cs => Node.element nm a (cs ++ [tag])) cs with
      | mk cs2 fd =>
        cases fd
        · cases hmrest : mapFirstNamed nameB
              (fun nm a cs => Node.element nm a (cs ++ [tag])) rest with
          | mk rest2 fd2 =>
            dsimp only
            rw [hasNamed]
            have h2 := ihrest hrest
            rw [hmrest] at h2
            dsimp only at h2
            simp [hnmA, hcs, h2]
        · dsimp only
          rw [hasNamed]
          have h1 := ihcs hcs
          rw [hmcs] at h1
          dsimp only at h1
          simp [hnmA, h1, hrest]
  · intro s rest ihrest hno
    simp only [hasNamed] at hno
    cases hmrest : mapFirstNamed nameB (fun nm a cs => Node.element nm a (cs ++ [tag])) rest with
    | mk rest2 fd2 =>
      simp only [mapFirstNamed, hmrest, hasNamed]
      have h2 := ihrest hno
      rw [hmrest] at h2
      exact h2
  · intro s rest ihrest hno
    simp only [hasNamed] at hno
    cases hmrest : mapFirstNamed nameB (fun nm a cs => Node.element nm a (cs ++ [tag])) rest with
    | mk rest2 fd2 =>
      simp only [mapFirstNamed, hmrest, hasNamed]
      have h2 := ihrest hno
      rw [hmrest] at h2
      exact h2
  · intro s rest ihrest hno
    simp only [hasNamed] at hno
    cases hmrest : mapFirstNamed nameB (fun nm a cs => Node.element nm a (cs ++ [tag])) rest with
    | mk rest2 fd2 =>
      simp only [mapFirstNamed, hmrest, hasNamed]
      have h2 := ihrest hno
      rw [hmrest] at h2
      exact h2

/-- `soup.head.append` / `soup.body.append` raises when the target element
does not exist. -/
theorem appendToFirstNamed_error (name : String) (tag : Node) (soup : List Node)
    (h : hasNamed name soup = false) :
    appendToFirstNamed name tag soup = .error () := by
  unfold appendToFirstNamed
  have hflag := mapFirstNamed_flag name (fun nm a cs => Node.element nm a (cs ++ [tag])) soup
  cases hm : mapFirstNamed name (fun nm a cs => Node.element nm a (cs ++ [tag])) soup with
  | mk soup2 fd =>
    rw [hm] at hflag
    dsimp only at hflag
    rw [h] at hflag
    subst hflag
    rfl

/-- A successful append into the first `nameB`-element leaves a document
without `nameA`-elements still without them. -/
theorem appendToFirstNamed_ok_preserves (nameA nameB : String) (tag : Node)
    (soup soup2 : List Node)
    (htag : hasNamed nameA [tag] = false)
    (h : hasNamed nameA soup = false)
    (hok : appendToFirstNamed nameB tag soup = .ok soup2) :
    hasNamed nameA soup2 = false := by
  unfold appendToFirstNamed at hok
  cases hm : mapFirstNamed nameB (fun nm a cs => Node.element nm a (cs ++ [tag])) soup with
  | mk s2 fd =>
    rw [hm] at hok
    cases fd
    · exact absurd hok (by simp)
    · dsimp only at hok
      have h2 := hasNamed_mapFirstNamed_append nameA nameB tag htag soup h
      rw [hm] at h2
      dsimp only at h2
      rw [← Except.ok.inj hok]
      exact h2

/-! ### Insertion dispatch of `inject` (claim C2) -/

/-- **C2** (amended): the tag prepared by `inject` is inserted *late* when
`runAt = document-end` — appended as the last child of the first `<body>`
element, or at the end of the document root when no `<body>` exists — and
the as-early-as-possible insertion of `insertEarlyIn` (before the first
element inside `<body>`; else after `<title>`; else after the first
element; else appended) is used exactly when `runAt` is not
`document-end`. -/
theorem inject_insertion_dispatch (script : Userscript) (soup : List Node)
    (options : Options) :
    (script.runAt = document_end →
      inject script soup options = insertLateIn soup (injectTag script options)) ∧
    (script.runAt ≠ document_end →
      inject script soup options = insertEarlyIn soup (injectTag script options)) ∧
    (hasNamed "body" soup = false →
      ∀ tag, insertLateIn soup tag = soup ++ [tag]) := by
  refine ⟨?_, ?_, ?_⟩
  · intro h
    unfold inject
    have hb : (script.runAt == document_end) = true := by simp [h]
    rw [hb]
    simp
  · intro h
    unfold inject
    have hb : (script.runAt == document_end) = false := by
      cases hbe : script.runAt == document_end
      · rfl
      · exact absurd (by simpa using hbe) h
    rw [hb]
    simp
  · intro hno tag
    unfold insertLateIn
    have hflag := mapFirstNamed_flag "body" (fun nm a cs => Node.element nm a (cs ++ [tag])) soup
    cases hm : mapFirstNamed "body" (fun nm a cs => Node.element nm a (cs ++ [tag])) soup with
    | mk s2 fd =>
      rw [hm] at hflag
      dsimp only at hflag
      rw [hno] at hflag
      subst hflag
      rfl

/-- Counterexample to C2 as stated: an inline script with the default
`runAt = document-end` applied to `<html><body><p/></body></html>` is
appended as the *last* child of the body, not inserted before the body's
first element as the claimed early insertion demands. -/
theorem inject_end_counterexample :
    inject scriptInlineEnd soupBodyP optsNoInline =
      [Node.element "html" [] [Node.element "body" []
        [Node.element "p" [] [],
         Node.element "script" [(ATTRIBUTE_UP_VERSION, VERSION)] [Node.text "X"]]]] ∧
    ¬ inject scriptInlineEnd soupBodyP optsNoInline =
        insertEarlyIn soupBodyP (injectTag scriptInlineEnd optsNoInline) := by
  have htag : injectTag scriptInlineEnd optsNoInline =
      Node.element "script" [(ATTRIBUTE_UP_VERSION, VERSION)] [Node.text "X"] := rfl
  have hrun : scriptInlineEnd.runAt = document_end := rfl
  have hlate : inject scriptInlineEnd soupBodyP optsNoInline =
      [Node.element "html" [] [Node.element "body" []
        [Node.element "p" [] [],
         Node.element "script" [(ATTRIBUTE_UP_VERSION, VERSION)] [Node.text "X"]]]] := by
    simp [inject, hrun, htag, insertLateIn, mapFirstNamed, soupBodyP]
  have hearly : insertEarlyIn soupBodyP (injectTag scriptInlineEnd optsNoInline) =
      [Node.element "html" [] [Node.element "body" []
        [Node.element "script" [(ATTRIBUTE_UP_VERSION, VERSION)] [Node.text "X"],
         Node.element "p" [] []]]] := by
    simp [insertEarlyIn, htag, findFirstNamed, insertBeforeFirstElem, isElem,
      mapFirstNamed, soupBodyP, insertEarlyFallback]
  refine ⟨hlate, fun h => ?_⟩
  rw [hlate, hearly] at h
  simp at h

/-- Witness for the amended C2 at a concrete inline `document-end`
script. -/
theorem inject_insertion_dispatch_witness :
    inject scriptInlineEnd soupBodyP optsNoInline =
      insertLateIn soupBodyP (injectTag scriptInlineEnd optsNoInline) :=
  (inject_insertion_dispatch scriptInlineEnd soupBodyP optsNoInline).1 rfl

/-! ### Tag construction (claim C7) -/

/-- **C7** (confirmed): `inject` builds a remote tag iff the script's
`downloadURL` is non-null and the configuration does not force inline; a
remote tag with `runAt ≠ document-idle` and `noframes = false` carries
exactly the version-suffixed `src` attribute and no body, and every other
remote combination gets an inline bootstrap body and no `src`
attribute. -/
theorem injectTag_remote_spec (script : Userscript) (options : Options) :
    (useInline script options = false ↔
      options.inline = false ∧ script.downloadURL ≠ none) ∧
    (∀ u, script.downloadURL = some u → options.inline = false →
      script.runAt ≠ document_idle → script.noframes = false →
      injectTag script options =
        .element "script" [(ATTRIBUTE_UP_VERSION, VERSION),
          ("src", withVersionSuffix u script.version)] []) ∧
    (∀ u, script.downloadURL = some u → options.inline = false →
      (script.runAt = document_idle ∨ script.noframes = true) →
      ∃ body, injectTag script options =
        .element "script" [(ATTRIBUTE_UP_VERSION, VERSION)] [.text body]) := by
  refine ⟨?_, ?_, ?_⟩
  · unfold useInline
    constructor
    · intro h
      rcases Bool.or_eq_false_iff.mp h with ⟨h1, h2⟩
      refine ⟨h1, ?_⟩
      cases hd : script.downloadURL
      · rw [hd] at h2; simp at h2
      · simp
    · rintro ⟨h1, h2⟩
      rw [h1]
      cases hd : script.downloadURL
      · exact absurd hd h2
      · rfl
  · intro u hu hin hidle hnf
    have hb : (script.runAt == document_idle) = false := by
      cases hbe : script.runAt == document_idle
      · rfl
      · exact absurd (by simpa using hbe) hidle
    unfold injectTag useInline
    rw [hu, hin, hb, hnf]
    rfl
  · intro u hu hin hcase
    have hb : (script.runAt == document_idle || script.noframes) = true := by
      rcases hcase with h | h
      · simp [h]
      · simp [h]
    unfold injectTag useInline
    rw [hu, hin, hb]
    exact ⟨_, rfl⟩

/-- Witness for C7 at a concrete remote `document-end` script without
`noframes`. -/
theorem injectTag_remote_spec_witness :
    injectTag scriptRemoteEnd optsNoInline =
      .element "script" [(ATTRIBUTE_UP_VERSION, VERSION),
        ("src", withVersionSuffix "https://x/s.user.js" scriptRemoteEnd.version)] [] :=
  (injectTag_remote_spec scriptRemoteEnd optsNoInline).2.1 "https://x/s.user.js"
    rfl rfl (by decide) rfl

/-! ### The response rewriter (claims C8, C9, C10) -/

theorem pyInsert_zero (x : Node) (l : List Node) : pyInsert 0 x l = x :: l := by
  cases l <;> rfl

theorem pyInsert_eq_insert (x : Node) :
    ∀ (l : List Node) (i : Nat), i ≤ l.length →
      pyInsert i x l = l.take i ++ x :: l.drop i := by
  intro l
  induction l with
  | nil =>
    intro i hi
    have h0 : i = 0 := Nat.le_zero.mp hi
    subst h0
    rfl
  | cons a rest ih =>
    intro i hi
    cases i with
    | zero => rfl
    | succ j =>
      simp only [pyInsert, List.take_succ_cons, List.drop_succ_cons, List.cons_append,
        List.cons.injEq, true_and]
      exact ih j (Nat.succ_le_succ_iff.mp (by simpa using hi))

theorem indexOfDoctype_spec :
    ∀ (l : List Node) (i : Nat), indexOfDoctype l = some i →
      i < l.length ∧ (l.take i).all (fun n => !isDoctype n) = true ∧
      ∃ d, l.get? i = some (Node.doctype d) := by
  intro l
  induction l with
  | nil => intro i h; simp [indexOfDoctype] at h
  | cons n rest ih =>
    intro i h
    rw [indexOfDoctype] at h
    by_cases hd : isDoctype n = true
    · rw [if_pos hd] at h
      have h0 : i = 0 := (Option.some.inj h).symm
      subst h0
      refine ⟨by simp, by simp, ?_⟩
      cases n with
      | doctype d => exact ⟨d, rfl⟩
      | element nm a cs => simp [isDoctype] at hd
      | text s2 => simp [isDoctype] at hd
      | comment s2 => simp [isDoctype] at hd
    · rw [if_neg hd] at h
      cases hr : indexOfDoctype rest with
      | none => rw [hr] at h; simp at h
      | some j =>
        rw [hr] at h
        simp only [Option.map_some'] at h
        have hij : i = j + 1 := (Option.some.inj h).symm
        subst hij
        obtain ⟨hlen, hall, d, hget⟩ := ih j hr
        have hdf : isDoctype n = false := by
          cases hdd : isDoctype n
          · rfl
          · exact absurd hdd hd
        refine ⟨by simpa using Nat.succ_lt_succ hlen, ?_, d, by simpa using hget⟩
        simp [List.all_cons, hdf, hall]

/-- The per-script loop raises (AttributeError on `None`) whenever some
applicable script targets `head` while the document has no `head` element
at that point, or targets `body` while it has no `body`; earlier appends
cannot create the missing target. -/
theorem processScripts_error_of_missing (url : String) :
    ∀ (scripts : List Userscript) (soup : List Node) (names : List String),
      ((hasNamed "head" soup = false ∧ ∃ sc, sc ∈ scripts ∧
          applicableChecker url sc = true ∧
          (sc.runAt = document_start ∨ sc.runAt = document_idle)) ∨
       (hasNamed "body" soup = false ∧ ∃ sc, sc ∈ scripts ∧
          applicableChecker url sc = true ∧
          sc.runAt ≠ document_start ∧ sc.runAt ≠ document_idle)) →
      processScripts url scripts soup names = .error () := by
  intro scripts
  induction scripts with
  | nil =>
    intro soup names h
    rcases h with ⟨_, sc, hmem, _⟩ | ⟨_, sc, hmem, _⟩ <;> simp at hmem
  | cons sc0 rest ih =>
    intro soup names h
    rw [processScripts]
    by_cases happ : applicableChecker url sc0 = true
    · rw [if_pos happ]
      by_cases hs : (sc0.runAt == document_start) = true
      · rcases h with ⟨hno, hex⟩ | ⟨hno, hex⟩
        · rw [injectOne, if_pos hs, appendToFirstNamed_error _ _ _ hno]
        · rw [injectOne, if_pos hs]
          cases hinj : appendToFirstNamed "head" (newScriptTag sc0.content) soup with
          | error e => cases e; rfl
          | ok soup2 =>
            have hno2 : hasNamed "body" soup2 = false :=
              appendToFirstNamed_ok_preserves "body" "head" _ soup soup2
                (by simp [newScriptTag, hasNamed]) hno hinj
            obtain ⟨sc, hmem, happ2, hrun⟩ := hex
            have hsc0run : sc0.runAt = document_start := by simpa using hs
            have hmem2 : sc ∈ rest := by
              rcases List.mem_cons.mp hmem with rfl | hm
              · exact absurd hsc0run hrun.1
              · exact hm
            exact ih soup2 (names ++ [sc0.name]) (Or.inr ⟨hno2, sc, hmem2, happ2, hrun⟩)
      · by_cases hi : (sc0.runAt == document_idle) = true
        · rcases h with ⟨hno, hex⟩ | ⟨hno, hex⟩
          · rw [injectOne, if_neg hs, if_pos hi, appendToFirstNamed_error _ _ _ hno]
          · rw [injectOne, if_neg hs, if_pos hi]
            cases hinj : appendToFirstNamed "head"
                (newScriptTag (wrapInEventListener "load" sc0.content)) soup with
            | error e => cases e; rfl
            | ok soup2 =>
              have hno2 : hasNamed "body" soup2 = false :=
                appendToFirstNamed_ok_preserves "body" "head" _ soup soup2
                  (by simp [newScriptTag, hasNamed]) hno hinj
              obtain ⟨sc, hmem, happ2, hrun⟩ := hex
              have hsc0run : sc0.runAt = document_idle := by simpa using hi
              have hmem2 : sc ∈ rest := by
                rcases List.mem_cons.mp hmem with rfl | hm
                · exact absurd hsc0run hrun.2
                · exact hm
              exact ih soup2 (names ++ [sc0.name]) (Or.inr ⟨hno2, sc, hmem2, happ2, hrun⟩)
        · rcases h with ⟨hno, hex⟩ | ⟨hno, hex⟩
          · rw [injectOne, if_neg hs, if_neg hi]
            cases hinj : appendToFirstNamed "body" (newScriptTag sc0.content) soup with
            | error e => cases e; rfl
            | ok soup2 =>
              have hno2 : hasNamed "head" soup2 = false :=
                appendToFirstNamed_ok_preserves "head" "body" _ soup soup2
                  (by simp [newScriptTag, hasNamed]) hno hinj
              obtain ⟨sc, hmem, happ2, hrun⟩ := hex
              have hmem2 : sc ∈ rest := by
                rcases List.mem_cons.mp hmem with rfl | hm
                · rcases hrun with h1 | h1
                  · exact absurd (by simp [h1]) hs
                  · exact absurd (by simp [h1]) hi
                · exact hm
              exact ih soup2 (names ++ [sc0.name]) (Or.inl ⟨hno2, sc, hmem2, happ2, hrun⟩)
          · rw [injectOne, if_neg hs, if_neg hi, appendToFirstNamed_error _ _ _ hno]
    · rw [if_neg happ]
      rcases h with ⟨hno, sc, hmem, happ2, hrun⟩ | ⟨hno, sc, hmem, happ2, hrun⟩
      · refine ih soup names (Or.inl ⟨hno, sc, ?_, happ2, hrun⟩)
        rcases List.mem_cons.mp hmem with rfl | hm
        · exact absurd happ2 happ
        · exact hm
      · refine ih soup names (Or.inr ⟨hno, sc, ?_, happ2, hrun⟩)
        rcases List.mem_cons.mp hmem with rfl | hm
        · exact absurd happ2 happ
        · exact hm

/-- **C10** (confirmed): the per-response rewrite dereferences the
insertion target without a null check — with an applicable
`document-start`/`document-idle` script and no `<head>`, or an applicable
`document-end` (or other) script and no `<body>`, it raises, the whole
rewrite aborts as an uncaught exception, no diagnostic comment is
inserted, and the response body stays unchanged. -/
theorem response_crashes_on_missing_target (userscripts : List Userscript)
    (flow : HttpFlow) (ct : String)
    (hct : flow.contentType = some ct)
    (hrel : RELEVANT_CONTENT_TYPES.any (fun t => pyIn t ct) = true)
    (htarget : (hasNamed "head" flow.soup = false ∧ ∃ sc, sc ∈ userscripts ∧
        applicableChecker flow.requestUrl sc = true ∧
        (sc.runAt = document_start ∨ sc.runAt = document_idle)) ∨
      (hasNamed "body" flow.soup = false ∧ ∃ sc, sc ∈ userscripts ∧
        applicableChecker flow.requestUrl sc = true ∧
        sc.runAt ≠ document_start ∧ sc.runAt ≠ document_idle)) :
    response userscripts flow = .crashed := by
  unfold response
  rw [hct]
  dsimp only
  rw [if_pos hrel, processScripts_error_of_missing flow.requestUrl userscripts
    flow.soup [] htarget]

/-- Witness for C10: a `document-start` script applicable to the request
URL and a document without `<head>` crash the rewrite. -/
theorem response_crashes_on_missing_target_witness :
    response [scriptStartAll] flowNoHead = .crashed :=
  response_crashes_on_missing_target [scriptStartAll] flowNoHead "text/html" rfl (by decide)
    (Or.inl ⟨by simp [flowNoHead, hasNamed], scriptStartAll, by simp,
      by simp [applicableChecker, scriptStartAll, flowNoHead, globMatch], Or.inl rfl⟩)

/-- **C8** (amended): when a response is rewritten, exactly one diagnostic
comment node is inserted, listing the inserted script names (or the
no-match message); it is placed immediately after the *first* doctype node
among the document's top-level nodes whenever any doctype is present — not
only when the doctype is the first node — and as the very first node
otherwise. -/
theorem response_comment_placement (userscripts : List Userscript) (flow : HttpFlow)
    (out : List Node) (ch : String)
    (h : response userscripts flow = .rewritten out ch) :
    ∃ base names,
      processScripts flow.requestUrl userscripts flow.soup [] = .ok (base, names) ∧
      ((indexOfDoctype base = none ∧ out = diagComment names :: base) ∨
       (∃ i, indexOfDoctype base = some i ∧
          out = base.take (i + 1) ++ diagComment names :: base.drop (i + 1) ∧
          (base.take i).all (fun n => !isDoctype n) = true ∧
          ∃ d, base.get? i = some (Node.doctype d))) := by
  unfold response at h
  cases hct : flow.contentType with
  | none => rw [hct] at h; simp at h
  | some ct =>
    rw [hct] at h
    dsimp only at h
    by_cases hrel : (RELEVANT_CONTENT_TYPES.any (fun t => pyIn t ct)) = true
    · rw [if_pos hrel] at h
      cases hp : processScripts flow.requestUrl userscripts flow.soup [] with
      | error e => rw [hp] at h; simp at h
      | ok pr =>
        obtain ⟨base, names⟩ := pr
        rw [hp] at h
        dsimp only at h
        refine ⟨base, names, rfl, ?_⟩
        cases hidx : indexOfDoctype base with
        | none =>
          rw [hidx] at h
          injection h with hsoup hch
          exact Or.inl ⟨rfl, by rw [← hsoup, pyInsert_zero]⟩
        | some i =>
          rw [hidx] at h
          injection h with hsoup hch
          obtain ⟨hlen, hall, d, hget⟩ := indexOfDoctype_spec base i hidx
          refine Or.inr ⟨i, rfl, ?_, hall, d, hget⟩
          rw [← hsoup, pyInsert_eq_insert (diagComment names) base (i + 1) hlen]
    · rw [if_neg hrel] at h
      simp at h

/-- Counterexample to C8 as stated: with a leading comment before the
doctype, the document's first node is *not* a doctype, yet the diagnostic
comment is inserted after the doctype (index 2), not as the very first
node. -/
theorem response_comment_placement_counterexample :
    response [] flowLateDoctype =
      .rewritten [Node.comment "x", Node.doctype "html", diagComment [],
        Node.element "html" [] []] "utf-8" ∧
    ¬ response [] flowLateDoctype =
      .rewritten (diagComment [] ::
        [Node.comment "x", Node.doctype "html", Node.element "html" [] []]) "utf-8" := by
  have hres : response [] flowLateDoctype =
      .rewritten [Node.comment "x", Node.doctype "html", diagComment [],
        Node.element "html" [] []] "utf-8" := by
    have hrel : (RELEVANT_CONTENT_TYPES.any (fun t => pyIn t "text/html")) = true := by decide
    have hcs : searchCharset ['t', 'e', 'x', 't', '/', 'h', 't', 'm', 'l'] = none := rfl
    simp [response, flowLateDoctype, soupLateDoctype, processScripts, indexOfDoctype,
      isDoctype, pyInsert, hrel, hcs, CHARSET_DEFAULT]
  refine ⟨hres, fun h => ?_⟩
  have h2 := hres.symm.trans h
  injection h2 with hsoup hch
  simp only [List.cons.injEq] at hsoup
  exact Node.noConfusion hsoup.2.1

/-- Witness for the amended C8 at a document whose doctype sits at index 1
behind a comment: the diagnostic comment lands right after it. -/
theorem response_comment_placement_witness :
    ∃ base names,
      processScripts flowLateDoctype.requestUrl [] flowLateDoctype.soup [] =
        .ok (base, names) ∧
      ((indexOfDoctype base = none ∧
          [Node.comment "x", Node.doctype "html", diagComment [],
            Node.element "html" [] []] = diagComment names :: base) ∨
       (∃ i, indexOfDoctype base = some i ∧
          [Node.comment "x", Node.doctype "html", diagComment [],
            Node.element "html" [] []] =
            base.take (i + 1) ++ diagComment names :: base.drop (i + 1) ∧
          (base.take i).all (fun n => !isDoctype n) = true ∧
          ∃ d, base.get? i = some (Node.doctype d))) :=
  response_comment_placement [] flowLateDoctype
    [Node.comment "x", Node.doctype "html", diagComment [], Node.element "html" [] []]
    "utf-8"
    (by
      have hrel : (RELEVANT_CONTENT_TYPES.any (fun t => pyIn t "text/html")) = true := by
        decide
      have hcs : searchCharset ['t', 'e', 'x', 't', '/', 'h', 't', 'm', 'l'] = none := rfl
      simp [response, flowLateDoctype, soupLateDoctype, processScripts, indexOfDoctype,
        isDoctype, pyInsert, hrel, hcs, CHARSET_DEFAULT])

/-- **C9** (confirmed): a response is rewritten only when `text/html` or
`application/xhtml+xml` occurs in its `Content-Type` header, and the
rewritten output is encoded with the charset named by the first
`charset=` token of that header, defaulting to UTF-8. -/
theorem response_rewrite_charset (userscripts : List Userscript) (flow : HttpFlow)
    (out : List Node) (ch : String)
    (h : response userscripts flow = .rewritten out ch) :
    ∃ ct, flow.contentType = some ct ∧
      (pyIn "text/html" ct = true ∨ pyIn "application/xhtml+xml" ct = true) ∧
      ch = (match searchCharset ct.toList with
            | none => CHARSET_DEFAULT
            | some v => String.mk v) := by
  unfold response at h
  cases hct : flow.contentType with
  | none => rw [hct] at h; simp at h
  | some ct =>
    rw [hct] at h
    dsimp only at h
    by_cases hrel : (RELEVANT_CONTENT_TYPES.any (fun t => pyIn t ct)) = true
    · refine ⟨ct, rfl, ?_, ?_⟩
      · simpa [RELEVANT_CONTENT_TYPES] using hrel
      · rw [if_pos hrel] at h
        cases hp : processScripts flow.requestUrl userscripts flow.soup [] with
        | error e => rw [hp] at h; simp at h
        | ok pr =>
          obtain ⟨base, names⟩ := pr
          rw [hp] at h
          dsimp only at h
          injection h with hsoup hch
          exact hch.symm
    · rw [if_neg hrel] at h
      simp at h

/-- Witness for C9: `Content-Type: text/html; charset=ISO-8859-1` rewrites
with charset `ISO-8859-1`. -/
theorem response_rewrite_charset_witness :
    ∃ ct, flowCharset.contentType = some ct ∧
      (pyIn "text/html" ct = true ∨ pyIn "application/xhtml+xml" ct = true) ∧
      "ISO-8859-1" = (match searchCharset ct.toList with
            | none => CHARSET_DEFAULT
            | some v => String.mk v) :=
  response_rewrite_charset [] flowCharset
    [diagComment [], Node.element "html" [] []] "ISO-8859-1"
    (by
      have hrel : (RELEVANT_CONTENT_TYPES.any
          (fun t => pyIn t "text/html; charset=ISO-8859-1")) = true := by decide
      have hcs : searchCharset ['t', 'e', 'x', 't', '/', 'h', 't', 'm', 'l', ';', ' ',
          'c', 'h', 'a', 'r', 's', 'e', 't', '=', 'I', 'S', 'O', '-', '8', '8', '5',
          '9', '-', '1'] = some ['I', 'S', 'O', '-', '8', '8', '5', '9', '-', '1'] := rfl
      simp [response, flowCharset, processScripts, indexOfDoctype, isDoctype,
        pyInsert, hrel, hcs])
